import Mathlib

/-
Verification of the adfluo computation-graph engine against its
natural-language specification.

The development shallowly embeds the relevant Python code:

* Model A (CachedNode, extraction_graph.py lines 69-146): the per-node
  multi-sample cache, its hit counting and eviction, the failed-sample
  set, and the pull protocol of CachedNode.__getitem__ together with
  SampleProcessorNode.compute_sample.  The dictionaries of the Python
  code become association lists, the failed-sample set becomes a
  duplicate-free list, and the outcome of running the wrapped processor
  (which is arbitrary user code) is a parameter of each pull.
* Model B (cache.py lines 65-83): SingleValueCache.
* Model C (extraction_graph.py lines 254-367): the DAG arena,
  genealogical_search, add_pipeline and solve_dependencies.  Python
  object identity becomes an index into an arena list; the Python hash
  of a node (class plus processor identity) becomes the NodeKind value,
  and ancestor_hash becomes a structural tree, modeling the intended
  perfect structural hashing.
* Model D (extraction_graph.py lines 421-441): extract_feature_wise.
* Model E (dataset.py lines 50-61): DictSample.

The process-wide flags skip_errors and no_cache of
utils.extraction_policy, and the exception classes BadSampleException
and DuplicateSampleError of the exceptions module, are not present
under src; they are modelled from the spec (section 6 and section 7):
two booleans fixed for the duration of a run, a recoverable bad-sample
signal carrying the sample, and a fatal duplicate-sample error.
-/

namespace Adfluo

/-! ## Model A: the cached node (extraction_graph.py, CachedNode and
SampleProcessorNode) -/

abbrev SampleID := Nat

abbrev Value := Int

/-- Association-list update with Python dict semantics: replace the
value under the key if it is present, append the binding otherwise. -/
def setK {α : Type} : List (SampleID × α) → SampleID → α → List (SampleID × α)
  | [], k, v => [(k, v)]
  | (k', v') :: t, k, v =>
    if k' = k then (k, v) :: t else (k', v') :: setK t k v

/-- Association-list deletion: remove the first binding with the key,
matching Python del on a dict whose keys are unique. -/
def delK {α : Type} : List (SampleID × α) → SampleID → List (SampleID × α)
  | [], _ => []
  | (k', v') :: t, k => if k' = k then t else (k', v') :: delK t k

/-- Python set add: insert the element if it is not already present. -/
def addFail (l : List SampleID) (s : SampleID) : List SampleID :=
  if l.contains s then l else s :: l

/-- The mutable state of a CachedNode: the value cache (_samples_cache),
the hit counters (_samples_cache_hits) and the failed-sample set
(_failed_samples). -/
structure CacheState where
  samplesCache : List (SampleID × Value)
  samplesCacheHits : List (SampleID × Nat)
  failedSamples : List SampleID
deriving DecidableEq, Repr

def CacheState.start : CacheState := ⟨[], [], []⟩

/-- Modelled from the spec: the recoverable bad-sample signal
(BadSampleException, raised with the offending sample) and the
propagation of an arbitrary original processor exception, identified
by a plain numeric code. -/
inductive PullExc
  | badSample (s : SampleID)
  | origError (e : Nat)
deriving DecidableEq, Repr

/-- The two exceptions that can escape CachedNode.from_cache: the
bad-sample signal for a recorded failure, and KeyError for a miss. -/
inductive CacheExc
  | badSample
  | keyError
deriving DecidableEq, Repr

/-- CachedNode.from_cache (extraction_graph.py lines 83-97): raise
BadSampleException when the sample is recorded as failed; on a cache
hit increment the hit counter and evict the entry once the counter has
reached the number of children; raise KeyError on a miss.  A present
cache entry with a missing hit counter would make the Python increment
raise KeyError, which the caller treats as a miss. -/
def from_cache (nChildren : Nat) (st : CacheState) (s : SampleID) :
    Except CacheExc (Value × CacheState) :=
  if st.failedSamples.contains s then .error .badSample
  else
    match List.lookup s st.samplesCache, List.lookup s st.samplesCacheHits with
    | some v, some h =>
      let h' := h + 1
      let hits' := setK st.samplesCacheHits s h'
      let cache' :=
        if nChildren ≤ h' then delK st.samplesCache s else st.samplesCache
      .ok (v, ⟨cache', hits', st.failedSamples⟩)
    | some _, none => .error .keyError
    | none, _ => .error .keyError

/-- CachedNode.to_cache (extraction_graph.py lines 99-101): store the
value and set the hit counter for the sample to 1. -/
def to_cache (st : CacheState) (s : SampleID) (v : Value) : CacheState :=
  ⟨setK st.samplesCache s v, setK st.samplesCacheHits s 1, st.failedSamples⟩

/-- The possible outcomes of running the body of
SampleProcessorNode.compute_sample on one sample: the parents all
delivered and the processor returned a value; some parent raised the
bad-sample signal; or the processor itself raised an exception. -/
inductive Outcome
  | success (v : Value)
  | parentBad
  | procError (e : Nat)
deriving DecidableEq, Repr

/-- SampleProcessorNode.compute_sample (extraction_graph.py lines
132-146): a parent bad-sample failure is recorded in the failed set and
re-raised; a processor exception is recorded and converted to the
bad-sample signal when skip_errors is set, and re-raised unchanged
otherwise; a successful computation leaves the state untouched. -/
def compute_sample (skipErrors : Bool) (st : CacheState) (s : SampleID)
    (oc : Outcome) : Except PullExc Value × CacheState :=
  match oc with
  | .success v => (.ok v, st)
  | .parentBad =>
    (.error (.badSample s), ⟨st.samplesCache, st.samplesCacheHits, addFail st.failedSamples s⟩)
  | .procError e =>
    if skipErrors then
      (.error (.badSample s), ⟨st.samplesCache, st.samplesCacheHits, addFail st.failedSamples s⟩)
    else
      (.error (.origError e), st)

instance {ε α : Type} [DecidableEq ε] [DecidableEq α] : DecidableEq (Except ε α) :=
  fun x y =>
    match x, y with
    | .ok a, .ok b =>
      if h : a = b then isTrue (by rw [h]) else isFalse (by intro hc; cases hc; exact h rfl)
    | .error a, .error b =>
      if h : a = b then isTrue (by rw [h]) else isFalse (by intro hc; cases hc; exact h rfl)
    | .ok _, .error _ => isFalse (by intro hc; cases hc)
    | .error _, .ok _ => isFalse (by intro hc; cases hc)

/-- The observable result of one pull: the returned value or exception,
whether compute_sample was invoked, and the state left behind. -/
structure PullResult where
  res : Except PullExc Value
  computed : Bool
  state : CacheState
deriving DecidableEq, Repr

/-- CachedNode.__getitem__ (extraction_graph.py lines 107-118): bypass
the cache when the node has at most one child or the no-cache policy is
active; otherwise try the cache, treat KeyError as a miss by computing
and storing, and let the bad-sample signal propagate. -/
def getitem (skipErrors noCache : Bool) (nChildren : Nat) (st : CacheState)
    (s : SampleID) (oc : Outcome) : PullResult :=
  if nChildren ≤ 1 ∨ noCache = true then
    let (r, st') := compute_sample skipErrors st s oc
    ⟨r, true, st'⟩
  else
    match from_cache nChildren st s with
    | .ok (v, st') => ⟨.ok v, false, st'⟩
    | .error .badSample => ⟨.error (.badSample s), false, st⟩
    | .error .keyError =>
      match compute_sample skipErrors st s oc with
      | (.ok v, st') => ⟨.ok v, true, to_cache st' s v⟩
      | (.error e, st') => ⟨.error e, true, st'⟩

/-- State of a cached node after a number of successful pulls of the
same sample, starting from the empty state. -/
def stateAfterPulls (skipErrors : Bool) (nChildren : Nat) (s : SampleID)
    (v : Value) : Nat → CacheState
  | 0 => CacheState.start
  | n + 1 =>
    (getitem skipErrors false nChildren (stateAfterPulls skipErrors nChildren s v n) s
      (.success v)).state

/-! ### Association-list helper lemmas -/

theorem lookup_cons_ne {α : Type} (t : List (SampleID × α)) (k' x : SampleID) (v' : α)
    (h : ¬ x = k') : List.lookup x ((k', v') :: t) = List.lookup x t := by
  have hbe : (x == k') = false := by
    simp [h]
  simp [List.lookup, hbe]

theorem lookup_cons_self {α : Type} (t : List (SampleID × α)) (x : SampleID) (v' : α) :
    List.lookup x ((x, v') :: t) = some v' := by
  simp [List.lookup]

theorem lookup_setK_self {α : Type} (l : List (SampleID × α)) (k : SampleID) (v : α) :
    List.lookup k (setK l k v) = some v := by
  induction l with
  | nil => simp [setK, List.lookup]
  | cons p t ih =>
    obtain ⟨k', v'⟩ := p
    by_cases h : k' = k
    · subst h
      have e1 : setK ((k', v') :: t) k' v = (k', v) :: t := by
        simp [setK]
      rw [e1]
      exact lookup_cons_self t k' v
    · simp only [setK, if_neg h]
      rw [lookup_cons_ne (setK t k v) k' k v' (fun hh => h hh.symm)]
      exact ih

theorem lookup_setK_isSome {α : Type} (l : List (SampleID × α)) (k : SampleID) (v : α)
    (x : SampleID) :
    (List.lookup x (setK l k v)).isSome = true ↔
      (x = k ∨ (List.lookup x l).isSome = true) := by
  induction l with
  | nil =>
    by_cases h : x = k
    · subst h
      simp [setK, lookup_cons_self]
    · simp only [setK]
      rw [lookup_cons_ne [] k x v h]
      simp [List.lookup, h]
  | cons p t ih =>
    obtain ⟨k', v'⟩ := p
    by_cases h : k' = k
    · subst h
      by_cases hx : x = k'
      · subst hx
        simp [setK, lookup_cons_self]
      · have e1 : setK ((k', v') :: t) k' v = (k', v) :: t := by
          simp [setK]
        rw [e1, lookup_cons_ne t k' x v hx, lookup_cons_ne t k' x v' hx]
        simp [hx]
    · by_cases hx : x = k'
      · subst hx
        simp only [setK, if_neg h]
        simp [lookup_cons_self]
      · simp only [setK, if_neg h]
        rw [lookup_cons_ne (setK t k v) k' x v' hx, lookup_cons_ne t k' x v' hx]
        exact ih

theorem lookup_delK_isSome {α : Type} (l : List (SampleID × α)) (k x : SampleID) :
    (List.lookup x (delK l k)).isSome = true → (List.lookup x l).isSome = true := by
  induction l with
  | nil => simp [delK]
  | cons p t ih =>
    obtain ⟨k', v'⟩ := p
    by_cases h : k' = k
    · subst h
      intro hx
      by_cases hxk : x = k'
      · subst hxk
        simp [lookup_cons_self]
      · rw [lookup_cons_ne t k' x v' hxk]
        simpa [delK] using hx
    · intro hx
      simp only [delK, if_neg h] at hx
      by_cases hxk : x = k'
      · subst hxk
        simp [lookup_cons_self]
      · rw [lookup_cons_ne (delK t k) k' x v' hxk] at hx
        rw [lookup_cons_ne t k' x v' hxk]
        exact ih hx

theorem addFail_contains (l : List SampleID) (s x : SampleID) :
    (addFail l s).contains x = true ↔ (x = s ∨ l.contains x = true) := by
  unfold addFail
  by_cases hc : l.contains s
  · rw [if_pos hc]
    constructor
    · exact Or.inr
    · rintro (rfl | h)
      · exact hc
      · exact h
  · rw [if_neg hc]
    simp [List.contains_cons]

/-! ### Claim C5: error handling in compute_sample -/

/-- Claim C5, counterexample.  The claim states that in strict mode
(skip-errors inactive) the original exception is propagated annotated
with the offending processor and the sample identity.  In the code the
original exception is re-raised unchanged (raise err): the propagated
error is exactly the original exception value, and it is identical for
two different samples, so it carries no sample identity (and no
processor) at all. -/
theorem c5_counterexample :
    (compute_sample false CacheState.start 0 (.procError 9)).1 = .error (.origError 9)
    ∧ (compute_sample false CacheState.start 0 (.procError 9)).1
        = (compute_sample false CacheState.start 1 (.procError 9)).1 := by
  constructor <;> rfl

/-- Claim C5, amended: when the wrapped processor raises while pulling
sample S, under the skip-errors policy S is recorded in the node's
failed-sample set and the bad-sample signal is raised to the caller;
a parent's bad-sample failure is likewise recorded and re-raised; in
strict mode the original exception is propagated to the caller
unchanged (not annotated with the processor or the sample) and the
failed-sample set is not modified.  A successful computation changes
nothing. -/
theorem c5_amended (se : Bool) (st : CacheState) (s s' : SampleID) (v : Value) (e : Nat) :
    compute_sample se st s .parentBad
      = (.error (.badSample s), ⟨st.samplesCache, st.samplesCacheHits, addFail st.failedSamples s⟩)
    ∧ compute_sample true st s (.procError e)
      = (.error (.badSample s), ⟨st.samplesCache, st.samplesCacheHits, addFail st.failedSamples s⟩)
    ∧ compute_sample false st s (.procError e) = (.error (.origError e), st)
    ∧ (compute_sample false st s (.procError e)).1
        = (compute_sample false st s' (.procError e)).1
    ∧ compute_sample se st s (.success v) = (.ok v, st) := by
  refine ⟨?_, rfl, rfl, rfl, ?_⟩ <;> cases se <;> rfl

/-! ### Claim C6: recorded failures short-circuit recomputation -/

/-- A cached-node state in which sample 7 is recorded as failed. -/
def c6FailedState : CacheState := ⟨[], [], [7]⟩

/-- Claim C6, counterexample.  The claim states that a recorded failed
sample raises the bad-sample signal without recomputation for every
fan-out, including nodes with at most one child, and regardless of the
no-cache policy.  With one child the cache (and with it the
failed-sample check) is bypassed: pulling failed sample 7 invokes the
computation again and even returns a value. -/
theorem c6_counterexample :
    ¬ ((getitem false false 1 c6FailedState 7 (.success 5)).computed = false
       ∧ (getitem false false 1 c6FailedState 7 (.success 5)).res
           = .error (.badSample 7)) := by
  intro h
  exact absurd h.1 (by decide)

/-- Claim C6, amended: for a cached node with at least two children and
the no-cache policy inactive, any pull for a sample recorded in the
failed-sample set raises the bad-sample signal without invoking the
computation and leaves the state unchanged.  (With at most one child,
or with the no-cache policy active, the cache and the failed-sample
check are bypassed and the node recomputes.) -/
theorem c6_amended (se : Bool) (k : Nat) (st : CacheState) (s : SampleID)
    (oc : Outcome) (hk : 2 ≤ k) (hf : st.failedSamples.contains s = true) :
    getitem se false k st s oc = ⟨.error (.badSample s), false, st⟩ := by
  have hk1 : ¬ (k ≤ 1 ∨ (false : Bool) = true) := by
    rintro (h | h)
    · omega
    · exact Bool.noConfusion h
  unfold getitem
  rw [if_neg hk1]
  unfold from_cache
  rw [if_pos hf]

/-- Claim C6, amended, witness: with two children and sample 7 recorded
as failed, the pull raises the bad-sample signal, does not compute, and
leaves the state unchanged. -/
theorem c6_amended_witness :
    getitem false false 2 c6FailedState 7 (.success 5)
      = ⟨.error (.badSample 7), false, c6FailedState⟩ :=
  c6_amended false 2 c6FailedState 7 (.success 5) (by decide) (by decide)

/-! ### Claim C1: reference-counted cache lifetime -/

/-- The state of a cached node while a value for one sample sits in the
cache with a given hit count. -/
def midState (s : SampleID) (v : Value) (h : Nat) : CacheState :=
  ⟨[(s, v)], [(s, h)], []⟩

theorem pull_first (se : Bool) (k : Nat) (s : SampleID) (v : Value) (hk : 2 ≤ k) :
    getitem se false k CacheState.start s (.success v)
      = ⟨.ok v, true, midState s v 1⟩ := by
  have hk1 : ¬ (k ≤ 1 ∨ (false : Bool) = true) := by
    rintro (h | h)
    · omega
    · exact Bool.noConfusion h
  unfold getitem
  rw [if_neg hk1]
  rfl

theorem pull_cached (se : Bool) (k : Nat) (s : SampleID) (v : Value) (h : Nat) (hk : 2 ≤ k) :
    getitem se false k (midState s v h) s (.success v)
      = ⟨.ok v, false, ⟨if k ≤ h + 1 then [] else [(s, v)], [(s, h + 1)], []⟩⟩ := by
  have hk1 : ¬ (k ≤ 1 ∨ (false : Bool) = true) := by
    rintro (h | h)
    · omega
    · exact Bool.noConfusion h
  have h1 : from_cache k (midState s v h) s
      = .ok (v, ⟨if k ≤ h + 1 then [] else [(s, v)], [(s, h + 1)], []⟩) := by
    unfold from_cache midState
    simp [List.lookup, delK, setK]
  unfold getitem
  rw [if_neg hk1, h1]

theorem stateAfter_mid (se : Bool) (k : Nat) (s : SampleID) (v : Value) (hk : 2 ≤ k) :
    ∀ n, 1 ≤ n → n < k → stateAfterPulls se k s v n = midState s v n := by
  intro n
  induction n with
  | zero => intro h _; omega
  | succ m ih =>
    intro _ hlt
    rcases Nat.eq_zero_or_pos m with hm | hm
    · subst hm
      show (getitem se false k (stateAfterPulls se k s v 0) s (.success v)).state = _
      rw [show stateAfterPulls se k s v 0 = CacheState.start from rfl,
        pull_first se k s v hk]
    · show (getitem se false k (stateAfterPulls se k s v m) s (.success v)).state = _
      rw [ih hm (by omega), pull_cached se k s v m hk]
      simp only [if_neg (by omega : ¬ k ≤ m + 1)]
      rfl

theorem stateAfter_k (se : Bool) (k : Nat) (s : SampleID) (v : Value) (hk : 2 ≤ k) :
    stateAfterPulls se k s v k = ⟨[], [(s, k)], []⟩ := by
  obtain ⟨m, rfl⟩ : ∃ m, k = m + 1 := ⟨k - 1, by omega⟩
  show (getitem se false (m + 1) (stateAfterPulls se (m + 1) s v m) s (.success v)).state = _
  rw [stateAfter_mid se (m + 1) s v hk m (by omega) (by omega),
    pull_cached se (m + 1) s v m hk]
  simp

theorem pull_after_evict (se : Bool) (k : Nat) (s : SampleID) (v : Value) (hk : 2 ≤ k) :
    getitem se false k (⟨[], [(s, k)], []⟩ : CacheState) s (.success v)
      = ⟨.ok v, true, midState s v 1⟩ := by
  have hk1 : ¬ (k ≤ 1 ∨ (false : Bool) = true) := by
    rintro (h | h)
    · omega
    · exact Bool.noConfusion h
  have h1 : from_cache k (⟨[], [(s, k)], []⟩ : CacheState) s = .error .keyError := rfl
  unfold getitem
  rw [if_neg hk1, h1]
  simp [compute_sample, to_cache, setK, midState]

/-- Claim C1: for a cached node with k greater or equal 2 children, the
no-cache policy inactive, and a sample whose computation succeeds with
value v, starting from the empty node state: the first pull invokes the
computation and stores the value in the cache; pulls 2 through k return
the cached value without recomputing; the cache entry is present after
each of the first k - 1 pulls and is evicted by the k-th pull; and a
(k+1)-th pull invokes the computation again (returning the freshly
computed value, not a stale cached entry). -/
theorem c1_cache_lifetime (se : Bool) (k : Nat) (s : SampleID) (v : Value)
    (hk : 2 ≤ k) :
    ((getitem se false k CacheState.start s (.success v)).computed = true
      ∧ (getitem se false k CacheState.start s (.success v)).res = .ok v
      ∧ List.lookup s (stateAfterPulls se k s v 1).samplesCache = some v)
    ∧ (∀ n, 1 ≤ n → n < k →
        (getitem se false k (stateAfterPulls se k s v n) s (.success v)).computed = false
        ∧ (getitem se false k (stateAfterPulls se k s v n) s (.success v)).res = .ok v)
    ∧ (∀ n, 1 ≤ n → n < k →
        List.lookup s (stateAfterPulls se k s v n).samplesCache = some v)
    ∧ List.lookup s (stateAfterPulls se k s v k).samplesCache = none
    ∧ (getitem se false k (stateAfterPulls se k s v k) s (.success v)).computed = true
    ∧ (getitem se false k (stateAfterPulls se k s v k) s (.success v)).res = .ok v := by
  refine ⟨⟨?_, ?_, ?_⟩, ?_, ?_, ?_, ?_, ?_⟩
  · rw [pull_first se k s v hk]
  · rw [pull_first se k s v hk]
  · show List.lookup s (getitem se false k CacheState.start s (.success v)).state.samplesCache = _
    rw [pull_first se k s v hk]
    simp [midState, List.lookup]
  · intro n h1 h2
    rw [stateAfter_mid se k s v hk n h1 h2, pull_cached se k s v n hk]
    exact ⟨rfl, rfl⟩
  · intro n h1 h2
    rw [stateAfter_mid se k s v hk n h1 h2]
    simp [midState, List.lookup]
  · rw [stateAfter_k se k s v hk]
    rfl
  · rw [stateAfter_k se k s v hk, pull_after_evict se k s v hk]
  · rw [stateAfter_k se k s v hk, pull_after_evict se k s v hk]

/-- Claim C1, witness: the cache-lifetime theorem instantiated at a node
with 2 children, sample 0 and value 5: the first pull computes and
stores, the second pull is a cache hit, after the second pull the entry
is gone, and the third pull computes again. -/
theorem c1_cache_lifetime_witness :
    (getitem false false 2 CacheState.start 0 (.success 5)).computed = true
    ∧ (getitem false false 2 (stateAfterPulls false 2 0 5 1) 0 (.success 5)).computed = false
    ∧ List.lookup 0 (stateAfterPulls false 2 0 5 2).samplesCache = none
    ∧ (getitem false false 2 (stateAfterPulls false 2 0 5 2) 0 (.success 5)).computed = true := by
  obtain ⟨h1, h2, _, h4, h5, _⟩ := c1_cache_lifetime false 2 0 5 (by decide)
  exact ⟨h1.1, (h2 1 (by decide) (by decide)).1, h4, h5⟩

/-! ### Claim C7: hit counting on store and retrieval -/

/-- Claim C7, counterexample.  The claim states that at the first store
the remaining-hit-count equals the number of children, each retrieval
decrements it, and the entry is evicted exactly at zero, so that after
the store the entry serves as many retrievals as the node has children.
For a node with 2 children that would make both the second and the
third pull cache retrievals.  In the code the counter starts at 1 and
the entry is already evicted by the second pull, so the third pull
recomputes. -/
theorem c7_counterexample :
    ¬ ((getitem false false 2 (stateAfterPulls false 2 0 5 1) 0 (.success 5)).computed = false
       ∧ (getitem false false 2 (stateAfterPulls false 2 0 5 2) 0 (.success 5)).computed
           = false) := by
  decide

/-- Claim C7, amended: when a cached node first stores a value for a
sample, the entry's hit counter is set to 1 (counting the storing pull
itself); every subsequent cache retrieval increments the counter by
one; the entry is evicted exactly when the counter reaches the node's
number of children: so after the store the entry serves children minus
one retrievals, remaining present after each of the first k - 1 pulls
and gone after the k-th. -/
theorem c7_amended (k : Nat) (st : CacheState) (s : SampleID) (v : Value) (h : Nat)
    (hk : 2 ≤ k) :
    List.lookup s (to_cache st s v).samplesCacheHits = some 1
    ∧ List.lookup s (to_cache st s v).samplesCache = some v
    ∧ from_cache k (midState s v h) s
        = .ok (v, ⟨if k ≤ h + 1 then [] else [(s, v)], [(s, h + 1)], []⟩)
    ∧ (∀ n, 1 ≤ n → n < k →
        List.lookup s (stateAfterPulls false k s v n).samplesCache = some v)
    ∧ List.lookup s (stateAfterPulls false k s v k).samplesCache = none := by
  refine ⟨?_, ?_, ?_, ?_, ?_⟩
  · simp [to_cache, lookup_setK_self]
  · simp [to_cache, lookup_setK_self]
  · unfold from_cache midState
    simp [List.lookup, delK, setK]
  · intro n h1 h2
    rw [stateAfter_mid false k s v hk n h1 h2]
    simp [midState, List.lookup]
  · rw [stateAfter_k false k s v hk]
    rfl

/-- Claim C7, amended, witness: with 2 children, after the storing pull
the hit counter for sample 0 is 1, the entry survives the first pull
and is gone after the second. -/
theorem c7_amended_witness :
    List.lookup 0 (to_cache CacheState.start 0 5).samplesCacheHits = some 1
    ∧ List.lookup 0 (stateAfterPulls false 2 0 5 1).samplesCache = some 5
    ∧ List.lookup 0 (stateAfterPulls false 2 0 5 2).samplesCache = none := by
  obtain ⟨h1, _, _, h4, h5⟩ := c7_amended 2 CacheState.start 0 5 1 (by decide)
  exact ⟨h1, h4 1 (by decide) (by decide), h5⟩

/-! ### Claim C9: the cache and the failed-sample set never overlap -/

/-- A sequence of pulls of a cached node: each element gives the sample
pulled and the outcome its computation would have.  The node's fan-out
and the process-wide policy flags are fixed for the duration of the
sequence, as they are during an extraction run. -/
def runPulls (se nc : Bool) (k : Nat) :
    List (SampleID × Outcome) → CacheState → CacheState
  | [], st => st
  | (s, oc) :: rest, st => runPulls se nc k rest (getitem se nc k st s oc).state

theorem compute_sample_fst_state (se : Bool) (st : CacheState) (s : SampleID)
    (oc : Outcome) :
    (compute_sample se st s oc).2.samplesCache = st.samplesCache
    ∧ (compute_sample se st s oc).2.samplesCacheHits = st.samplesCacheHits
    ∧ ((compute_sample se st s oc).2.failedSamples = st.failedSamples
        ∨ (compute_sample se st s oc).2.failedSamples = addFail st.failedSamples s) := by
  cases oc <;> cases se <;>
    simp [compute_sample]

/-- The inductive invariant of the pull protocol: a cached sample always
has a hit counter, a cached sample is never recorded as failed, and
when the cache is bypassed (fan-out at most one, or no-cache active)
the cache stays empty. -/
def cacheInv (nc : Bool) (k : Nat) (st : CacheState) : Prop :=
  (∀ y, (List.lookup y st.samplesCache).isSome = true →
      (List.lookup y st.samplesCacheHits).isSome = true)
  ∧ (∀ y, (List.lookup y st.samplesCache).isSome = true →
      st.failedSamples.contains y = false)
  ∧ ((k ≤ 1 ∨ nc = true) → st.samplesCache = [])

theorem cacheInv_start (nc : Bool) (k : Nat) : cacheInv nc k CacheState.start := by
  refine ⟨?_, ?_, ?_⟩ <;> intro y <;> simp [CacheState.start, List.lookup]

theorem compute_sample_ok (se : Bool) (st : CacheState) (s : SampleID) (oc : Outcome)
    (v : Value) (r : CacheState) (h : compute_sample se st s oc = (.ok v, r)) :
    r = st := by
  cases oc with
  | success w =>
    simp only [compute_sample, Prod.mk.injEq, Except.ok.injEq] at h
    exact h.2.symm
  | parentBad =>
    simp only [compute_sample, Prod.mk.injEq] at h
    exact absurd h.1 (by simp)
  | procError e =>
    cases se <;> simp [compute_sample] at h

theorem cacheInv_step (se nc : Bool) (k : Nat) (st : CacheState) (s : SampleID)
    (oc : Outcome) (hinv : cacheInv nc k st) :
    cacheInv nc k (getitem se nc k st s oc).state := by
  obtain ⟨h1, h2, h3⟩ := hinv
  by_cases hbp : k ≤ 1 ∨ nc = true
  · -- cache bypassed: the cache is empty and compute_sample keeps it so
    have hemp : st.samplesCache = [] := h3 hbp
    unfold getitem
    rw [if_pos hbp]
    obtain ⟨e1, _, _⟩ := compute_sample_fst_state se st s oc
    refine ⟨?_, ?_, ?_⟩
    · intro y hy
      rw [show (compute_sample se st s oc).2.samplesCache = st.samplesCache from e1,
        hemp] at hy
      simp [List.lookup] at hy
    · intro y hy
      rw [show (compute_sample se st s oc).2.samplesCache = st.samplesCache from e1,
        hemp] at hy
      simp [List.lookup] at hy
    · intro _
      rw [show (compute_sample se st s oc).2.samplesCache = st.samplesCache from e1, hemp]
  · -- the cached path
    unfold getitem
    rw [if_neg hbp]
    rcases hfc : from_cache k st s with exc | ⟨v, st'⟩
    · -- from_cache raised: either the bad-sample signal or a miss
      cases exc with
      | badSample => exact ⟨h1, h2, h3⟩
      | keyError =>
        -- a miss: the sample is not recorded as failed and not cached
        unfold from_cache at hfc
        by_cases hfs : st.failedSamples.contains s
        · rw [if_pos hfs] at hfc
          exact absurd hfc (by simp)
        · rw [if_neg hfs] at hfc
          have hnc : List.lookup s st.samplesCache = none := by
            rcases hlc : List.lookup s st.samplesCache with _ | v0
            · rfl
            · rcases hlh : List.lookup s st.samplesCacheHits with _ | h0
              · exact absurd (h1 s (by simp [hlc])) (by simp [hlh])
              · rw [hlc, hlh] at hfc
                exact absurd hfc (by simp)
          rcases hcs : compute_sample se st s oc with ⟨r, st'⟩
          obtain ⟨e1, e2, e3⟩ := compute_sample_fst_state se st s oc
          rw [hcs] at e1 e2 e3
          simp only at e1 e2 e3
          cases r with
          | ok v =>
            -- success: the value is stored for a sample that is not failed,
            -- and compute_sample left the whole state unchanged
            have hst' : st' = st := compute_sample_ok se st s oc v st' hcs
            subst hst'
            refine ⟨?_, ?_, ?_⟩
            · intro y hy
              simp only [to_cache] at hy ⊢
              rcases (lookup_setK_isSome st'.samplesCache s v y).mp hy with rfl | hy'
              · simp [lookup_setK_self]
              · exact (lookup_setK_isSome st'.samplesCacheHits s 1 y).mpr
                  (Or.inr (h1 y hy'))
            · intro y hy
              simp only [to_cache] at hy ⊢
              rcases (lookup_setK_isSome st'.samplesCache s v y).mp hy with rfl | hy'
              · simpa using hfs
              · exact h2 y hy'
            · intro hc
              exact absurd hc hbp
          | error e =>
            -- failure: compute_sample leaves the cache unchanged and the
            -- failed sample is not cached
            refine ⟨?_, ?_, ?_⟩
            · intro y hy
              rw [e1] at hy
              rw [e2]
              exact h1 y hy
            · intro y hy
              rw [e1] at hy
              rcases e3 with e3 | e3 <;> rw [e3]
              · exact h2 y hy
              · by_cases hys : y = s
                · subst hys
                  rw [hnc] at hy
                  simp at hy
                · rcases hcon : (addFail st.failedSamples s).contains y with _ | _
                  · rfl
                  · rcases (addFail_contains st.failedSamples s y).mp hcon with rfl | hcy
                    · exact absurd rfl hys
                    · rw [h2 y hy] at hcy
                      exact Bool.noConfusion hcy
            · intro hc
              exact absurd hc hbp
    · -- cache hit: the cache shrinks or stays, the hit counter is bumped
      unfold from_cache at hfc
      by_cases hfs : st.failedSamples.contains s
      · rw [if_pos hfs] at hfc
        exact absurd hfc (by simp)
      · rw [if_neg hfs] at hfc
        rcases hlc : List.lookup s st.samplesCache with _ | v0 <;>
          rcases hlh : List.lookup s st.samplesCacheHits with _ | h0 <;>
            rw [hlc, hlh] at hfc
        · exact absurd hfc (by simp)
        · exact absurd hfc (by simp)
        · exact absurd hfc (by simp)
        -- both lookups succeed
        · have hinj := hfc
          simp only [Except.ok.injEq, Prod.mk.injEq] at hinj
          obtain ⟨hv, hst⟩ := hinj
          rw [← hst]
          refine ⟨?_, ?_, ?_⟩
          · intro y hy
            simp only at hy ⊢
            have hy' : (List.lookup y st.samplesCache).isSome = true := by
              by_cases hev : k ≤ h0 + 1
              · rw [if_pos hev] at hy
                exact lookup_delK_isSome st.samplesCache s y hy
              · rw [if_neg hev] at hy
                exact hy
            exact (lookup_setK_isSome st.samplesCacheHits s (h0 + 1) y).mpr
              (Or.inr (h1 y hy'))
          · intro y hy
            simp only at hy ⊢
            have hy' : (List.lookup y st.samplesCache).isSome = true := by
              by_cases hev : k ≤ h0 + 1
              · rw [if_pos hev] at hy
                exact lookup_delK_isSome st.samplesCache s y hy
              · rw [if_neg hev] at hy
                exact hy
            exact h2 y hy'
          · intro hc
            exact absurd hc hbp

theorem cacheInv_run (se nc : Bool) (k : Nat) (ops : List (SampleID × Outcome))
    (st : CacheState) (hinv : cacheInv nc k st) :
    cacheInv nc k (runPulls se nc k ops st) := by
  induction ops generalizing st with
  | nil => exact hinv
  | cons p rest ih =>
    obtain ⟨s, oc⟩ := p
    exact ih (getitem se nc k st s oc).state (cacheInv_step se nc k st s oc hinv)

/-- Claim C9: invariant of the pull protocol.  Starting from an empty
cache and empty failed-sample set, after any sequence of pulls (each
with any outcome), no sample id is simultaneously a key of the node's
value cache and a member of its failed-sample set: values are stored
only for samples whose computation succeeded, and samples are marked
failed only on paths that store no value for them. -/
theorem c9_cache_failed_disjoint (se nc : Bool) (k : Nat)
    (ops : List (SampleID × Outcome)) (x : SampleID) :
    ((List.lookup x (runPulls se nc k ops CacheState.start).samplesCache).isSome
      && (runPulls se nc k ops CacheState.start).failedSamples.contains x) = false := by
  obtain ⟨_, h2, _⟩ := cacheInv_run se nc k ops CacheState.start (cacheInv_start nc k)
  rcases hc : (List.lookup x (runPulls se nc k ops CacheState.start).samplesCache).isSome
    with _ | _
  · simp
  · rw [h2 x hc]
    rfl

/-! ## Model B: the single-value cache (cache.py, SingleValueCache) -/

/-- SingleValueCache (cache.py lines 65-83): at most one cached value
for the whole dataset.  The Python initial value None of the slot is
modelled by an Option. -/
structure SingleValueCache where
  cachedValue : Option Value
  hasBeenCached : Bool
deriving DecidableEq, Repr

def SingleValueCache.fresh : SingleValueCache := ⟨none, false⟩

/-- SingleValueCache.__setitem__: store the value and mark the cache as
filled.  The sample argument is ignored by the code. -/
def svc_setitem (c : SingleValueCache) (s : SampleID) (v : Value) : SingleValueCache :=
  ⟨some v, true⟩

/-- SingleValueCache.__getitem__, transcribed exactly as written
(cache.py lines 75-79): when the value has been cached it raises
KeyError, and when nothing has been cached it returns the slot (the
Python None). -/
def svc_getitem (c : SingleValueCache) (s : SampleID) : Except CacheExc (Option Value) :=
  if c.hasBeenCached then .error .keyError else .ok c.cachedValue

/-- SingleValueCache.reset. -/
def svc_reset (c : SingleValueCache) : SingleValueCache := ⟨none, false⟩

/-- Claim C3 names a code bug: the guard of the single-value cache's
getitem is inverted.  After putting value 5 for sample 0, getting any
sample raises the cache-miss KeyError (whose message even reads that
the sample is not in the cache), and a get on a fresh cache into which
nothing was put returns the Python None instead of signalling a miss.
The cache contract of the spec (get returns the stored value until
reset, and reports NotFound when nothing is stored) matches the sibling
SampleCache class in the same file; this getitem branches the opposite
way. -/
theorem c3_code_bug_eval :
    svc_getitem (svc_setitem SingleValueCache.fresh 0 5) 0 = .error .keyError
    ∧ svc_getitem SingleValueCache.fresh 0 = .ok none
    ∧ svc_getitem (svc_reset (svc_setitem SingleValueCache.fresh 0 5)) 0 = .ok none := by
  exact ⟨rfl, rfl, rfl⟩

/-! ## Model E: DictSample (dataset.py lines 50-61) -/

/-- A Python value as far as DictSample is concerned: the stored
dictionary values are left abstract, and the fallback id is a string. -/
inductive PyVal
  | pyInt (n : Int)
  | pyStr (s : String)
deriving DecidableEq, Repr

/-- String-keyed dictionary update with Python dict semantics. -/
def setKS : List (String × PyVal) → String → PyVal → List (String × PyVal)
  | [], k, v => [(k, v)]
  | (k', v') :: t, k, v =>
    if k' = k then (k, v) :: t else (k', v') :: setKS t k v

/-- DictSample: the constructor fixes sample_id to the value under the
key id of the dictionary when present, and to str(sample_id) of the
integer position otherwise; features is the per-sample feature store of
the Sample base class. -/
structure DictSample where
  sampleId : PyVal
  sampleDict : List (String × PyVal)
  features : List (String × PyVal)
deriving DecidableEq, Repr

/-- DictSample.__init__ (dataset.py lines 52-54). -/
def DictSample.make (d : List (String × PyVal)) (i : Int) : DictSample :=
  ⟨(List.lookup "id" d).getD (.pyStr (toString i)), d, []⟩

/-- The id property (dataset.py lines 56-58): reads the field fixed at
construction. -/
def DictSample.id (s : DictSample) : PyVal := s.sampleId

/-- Sample.store_feature (dataset.py lines 41-47): the only mutating
method of a sample; it touches the feature store only. -/
def DictSample.store_feature (s : DictSample) (name : String) (v : PyVal) : DictSample :=
  ⟨s.sampleId, s.sampleDict, setKS s.features name v⟩

/-- Claim C10: the id of a DictSample built from dictionary d and
position i is the value under the key id of d when that key is
present, and the decimal string rendering of i otherwise; and the id is
stable, since only the construction fixes it (storing a feature, the
only mutation a sample undergoes, leaves it unchanged). -/
theorem c10_dict_sample_id (d : List (String × PyVal)) (i : Int) (v : PyVal)
    (name : String) (w : PyVal) :
    (List.lookup "id" d = some v → (DictSample.make d i).id = v)
    ∧ (List.lookup "id" d = none → (DictSample.make d i).id = .pyStr (toString i))
    ∧ ((DictSample.make d i).store_feature name w).id = (DictSample.make d i).id := by
  refine ⟨?_, ?_, rfl⟩
  · intro h
    simp [DictSample.make, DictSample.id, h]
  · intro h
    simp [DictSample.make, DictSample.id, h]

/-- Claim C10, witness: with the key id present the id is the stored
value, without it the id is the decimal rendering of the position, and
storing a feature does not change it. -/
theorem c10_dict_sample_id_witness :
    (DictSample.make [("id", .pyInt 42)] 3).id = .pyInt 42
    ∧ (DictSample.make [("a", .pyInt 1)] 7).id = .pyStr "7"
    ∧ ((DictSample.make [("a", .pyInt 1)] 7).store_feature "f" (.pyInt 0)).id
        = (DictSample.make [("a", .pyInt 1)] 7).id := by
  refine ⟨?_, ?_, ?_⟩
  · exact (c10_dict_sample_id [("id", .pyInt 42)] 3 (.pyInt 42) "f" (.pyInt 0)).1 (by rfl)
  · exact (c10_dict_sample_id [("a", .pyInt 1)] 7 (.pyInt 0) "f" (.pyInt 0)).2.1 (by rfl)
  · exact (c10_dict_sample_id [("a", .pyInt 1)] 7 (.pyInt 0) "f" (.pyInt 0)).2.2

/-! ## Model D: feature-wise extraction (extraction_graph.py lines
421-441, ExtractionDAG.extract_feature_wise) -/

/-- The pull of the named feature node for one sample: a stateful
function (the DAG caches are threaded through), returning the value or
an exception. -/
abbrev PullFun (σ : Type) := SampleID → σ → (Except PullExc Value) × σ

/-- Modelled from the spec: the fatal duplicate-sample error of the
exceptions module. -/
inductive EFWResult
  | ok (featDict : List (SampleID × Value))
  | dupSample (s : SampleID)
  | raised (e : Nat)
deriving DecidableEq, Repr

/-- The traversal loop of extract_feature_wise: one pass over the
dataset, raising the duplicate-sample error as soon as an id repeats
(before pulling it), pulling each fresh sample once, skipping samples
that raised the bad-sample signal, recording every other pulled value,
and letting any other exception propagate.  The last component logs
every sample actually pulled, in order. -/
def efw_loop {σ : Type} (pull : PullFun σ) :
    List SampleID → List SampleID → List (SampleID × Value) → σ → List SampleID →
      EFWResult × List SampleID
  | [], _, acc, _, log => (.ok acc, log)
  | s :: rest, seen, acc, st, log =>
    if seen.contains s then (.dupSample s, log)
    else
      match pull s st with
      | (.ok v, st') => efw_loop pull rest (s :: seen) (acc ++ [(s, v)]) st' (log ++ [s])
      | (.error (.badSample _), st') => efw_loop pull rest (s :: seen) acc st' (log ++ [s])
      | (.error (.origError e), _) => (.raised e, log ++ [s])

/-- ExtractionDAG.extract_feature_wise for a fixed feature, over the
dataset given as the list of its sample ids. -/
def extract_feature_wise {σ : Type} (pull : PullFun σ) (samples : List SampleID)
    (st0 : σ) : EFWResult × List SampleID :=
  efw_loop pull samples [] [] st0 []

/-- The mapping that the spec describes: one pass over the dataset,
keeping for each sample the pulled value when the pull succeeds and
omitting the sample otherwise.  (Spec-following definition, to be
compared with the transcription of the code.) -/
def specExtractedDict {σ : Type} (pull : PullFun σ) :
    List SampleID → σ → List (SampleID × Value)
  | [], _ => []
  | s :: rest, st =>
    match pull s st with
    | (.ok v, st') => (s, v) :: specExtractedDict pull rest st'
    | (.error _, st') => specExtractedDict pull rest st'

theorem not_contains_prop (l : List SampleID) (s : SampleID) (h : s ∉ l) :
    ¬ (l.contains s = true) :=
  fun hc => h (List.elem_iff.mp hc)

theorem efw_loop_nodup {σ : Type} (pull : PullFun σ)
    (hraise : ∀ s st e, (pull s st).1 ≠ .error (.origError e)) :
    ∀ (rest seen : List SampleID) (acc : List (SampleID × Value)) (st : σ)
      (log : List SampleID),
      rest.Nodup → (∀ x ∈ rest, x ∉ seen) →
      efw_loop pull rest seen acc st log
        = (.ok (acc ++ specExtractedDict pull rest st), log ++ rest) := by
  intro rest
  induction rest with
  | nil =>
    intro seen acc st log _ _
    simp [efw_loop, specExtractedDict]
  | cons s t ih =>
    intro seen acc st log hnd hseen
    have hs : ¬ (seen.contains s = true) := not_contains_prop seen s (hseen s (by simp))
    have hseen' : ∀ x ∈ t, x ∉ s :: seen := by
      intro x hx
      have hxs : ¬ x = s := by
        intro hh
        subst hh
        exact (List.nodup_cons.mp hnd).1 hx
      simp only [List.mem_cons]
      rintro (hh | hh)
      · exact hxs hh
      · exact hseen x (by simp [hx]) hh
    rcases hp : pull s st with ⟨r, st'⟩
    rcases r with exc | v
    · rcases exc with s0 | e0
      · rw [show efw_loop pull (s :: t) seen acc st log
            = efw_loop pull t (s :: seen) acc st' (log ++ [s]) by
          simp only [efw_loop, if_neg hs, hp]]
        rw [ih (s :: seen) acc st' (log ++ [s]) (List.Nodup.of_cons hnd) hseen']
        rw [show specExtractedDict pull (s :: t) st = specExtractedDict pull t st' by
          simp only [specExtractedDict, hp]]
        simp
      · exact absurd (by rw [hp] : (pull s st).1 = .error (.origError e0))
          (hraise s st e0)
    · rw [show efw_loop pull (s :: t) seen acc st log
          = efw_loop pull t (s :: seen) (acc ++ [(s, v)]) st' (log ++ [s]) by
        simp only [efw_loop, if_neg hs, hp]]
      rw [ih (s :: seen) (acc ++ [(s, v)]) st' (log ++ [s])
        (List.Nodup.of_cons hnd) hseen']
      rw [show specExtractedDict pull (s :: t) st
          = (s, v) :: specExtractedDict pull t st' by
        simp only [specExtractedDict, hp]]
      simp

theorem efw_loop_dup {σ : Type} (pull : PullFun σ)
    (hraise : ∀ s st e, (pull s st).1 ≠ .error (.origError e)) :
    ∀ (xs : List SampleID) (s : SampleID) (ys seen : List SampleID)
      (acc : List (SampleID × Value)) (st : σ) (log : List SampleID),
      xs.Nodup → (∀ x ∈ xs, x ∉ seen) →
      (s ∈ xs ∨ s ∈ seen) →
      efw_loop pull (xs ++ s :: ys) seen acc st log = (.dupSample s, log ++ xs) := by
  intro xs
  induction xs with
  | nil =>
    intro s ys seen acc st log _ _ hmem
    rcases hmem with h | h
    · simp at h
    · have hc : seen.contains s = true := List.elem_iff.mpr h
      simp only [List.nil_append, efw_loop, if_pos hc, List.append_nil]
  | cons x t ih =>
    intro s ys seen acc st log hnd hseen hmem
    have hx : ¬ (seen.contains x = true) := not_contains_prop seen x (hseen x (by simp))
    have hmem' : s ∈ t ∨ s ∈ x :: seen := by
      rcases hmem with h | h
      · rcases List.mem_cons.mp h with rfl | h'
        · exact Or.inr (by simp)
        · exact Or.inl h'
      · exact Or.inr (by simp [h])
    have hseen' : ∀ y ∈ t, y ∉ x :: seen := by
      intro y hy
      have hyx : ¬ y = x := by
        intro hh
        subst hh
        exact (List.nodup_cons.mp hnd).1 hy
      simp only [List.mem_cons]
      rintro (hh | hh)
      · exact hyx hh
      · exact hseen y (by simp [hy]) hh
    rcases hp : pull x st with ⟨r, st'⟩
    rcases r with exc | v
    · rcases exc with s0 | e0
      · rw [show efw_loop pull ((x :: t) ++ s :: ys) seen acc st log
            = efw_loop pull (t ++ s :: ys) (x :: seen) acc st' (log ++ [x]) by
          simp only [efw_loop, if_neg hx, hp]
          rfl]
        rw [ih s ys (x :: seen) acc st' (log ++ [x])
          (List.Nodup.of_cons hnd) hseen' hmem']
        simp
      · exact absurd (by rw [hp] : (pull x st).1 = .error (.origError e0))
          (hraise x st e0)
    · rw [show efw_loop pull ((x :: t) ++ s :: ys) seen acc st log
          = efw_loop pull (t ++ s :: ys) (x :: seen) (acc ++ [(x, v)]) st' (log ++ [x]) by
        simp only [efw_loop, if_neg hx, hp]
        rfl]
      rw [ih s ys (x :: seen) (acc ++ [(x, v)]) st' (log ++ [x])
        (List.Nodup.of_cons hnd) hseen' hmem']
      simp

/-- Claim C8: extract_feature_wise iterates the dataset exactly once in
order (the log of performed pulls equals the dataset when the ids are
duplicate-free), skips the samples whose pull raised the bad-sample
signal, and returns the mapping holding exactly the remaining samples
with their pulled values; and when the dataset repeats an identifier,
the duplicate-sample error is raised at the first repetition, after
exactly the samples before it were pulled. -/
theorem c8_extract_feature_wise {σ : Type} (pull : PullFun σ) (st0 : σ)
    (hraise : ∀ s st e, (pull s st).1 ≠ .error (.origError e)) :
    (∀ samples : List SampleID, samples.Nodup →
        extract_feature_wise pull samples st0
          = (.ok (specExtractedDict pull samples st0), samples))
    ∧ (∀ (xs : List SampleID) (s : SampleID) (ys : List SampleID),
        xs.Nodup → s ∈ xs →
        extract_feature_wise pull (xs ++ s :: ys) st0 = (.dupSample s, xs)) := by
  constructor
  · intro samples hnd
    unfold extract_feature_wise
    rw [efw_loop_nodup pull hraise samples [] [] st0 [] hnd
      (by intro x _ hc; exact (List.not_mem_nil x) hc)]
    simp
  · intro xs s ys hnd hmem
    unfold extract_feature_wise
    rw [efw_loop_dup pull hraise xs s ys [] [] st0 [] hnd
      (by intro x _ hc; exact (List.not_mem_nil x) hc) (Or.inl hmem)]
    simp

/-- A concrete pull function for the witness: sample 1 always raises
the bad-sample signal, every other sample yields its id as value. -/
def c8pull : PullFun Unit := fun s _ =>
  (if s = 1 then .error (.badSample s) else .ok (Int.ofNat s), ())

/-- Claim C8, witness: over dataset [0, 1, 2] the extraction pulls each
sample once in order and returns the mapping without sample 1; over
[0, 1, 0] it stops with the duplicate-sample error for id 0 after
pulling 0 and 1. -/
theorem c8_extract_feature_wise_witness :
    extract_feature_wise c8pull [0, 1, 2] ()
      = (.ok [(0, 0), (2, 2)], [0, 1, 2])
    ∧ extract_feature_wise c8pull [0, 1, 0] () = (.dupSample 0, [0, 1]) := by
  have hraise : ∀ s st e, (c8pull s st).1 ≠ .error (.origError e) := by
    intro s st e h
    revert h
    by_cases hs : s = 1 <;> simp [c8pull, hs]
  obtain ⟨h1, h2⟩ := c8_extract_feature_wise c8pull () hraise
  constructor
  · rw [h1 [0, 1, 2] (by decide)]
    rfl
  · rw [show ([0, 1, 0] : List SampleID) = [0, 1] ++ 0 :: [] from rfl,
      h2 [0, 1] 0 [] (by decide) (by decide)]

/-! ## Model C: the extraction DAG (extraction_graph.py lines 254-367)

Python node objects live in an arena; a node reference is an index into
it.  The Python hash of a node, hash of the pair of its class and its
processor identity, is modelled by the NodeKind value: two nodes are
equal in the Python sense exactly when their kinds are equal (the
is_feat flag of an InputNode does not enter its hash, so it sits
outside the kind).  BatchProcessorNode takes no part in the claims and
is omitted; it would be one more constructor treated like proc. -/

inductive NodeKind
  | root
  | input (dataName : String)
  | feature (featName : String)
  | proc (procId : Nat)
deriving DecidableEq, Repr

structure GNode where
  kind : NodeKind
  isFeat : Bool
  parents : List Nat
  children : List Nat
deriving DecidableEq, Repr

/-- The state owned by ExtractionDAG: the arena of all node objects,
the list self.nodes of stored processing nodes, the feature registry,
the root node's index, and the dependency-solving dirty flag. -/
structure DagState where
  arena : List GNode
  dagNodes : List Nat
  featureNodes : List (String × Nat)
  rootId : Nat
  needsDepSolving : Bool
deriving DecidableEq, Repr

/-- The Python hash of the node object: its class and processor
identity, i.e. its kind. -/
def localKind (ar : List GNode) (i : Nat) : Option NodeKind :=
  (ar.get? i).map (fun n => n.kind)

/-- In-place mutation of one node object of the arena. -/
def modifyNode (ar : List GNode) (i : Nat) (f : GNode → GNode) : List GNode :=
  match ar.get? i with
  | some n => ar.set i (f n)
  | none => ar

/-- The value of BaseGraphNode.ancestor_hash, modelled structurally (a
perfect structural hash): processor nodes combine their own identity
with the recursively computed hashes of all parents; root, input and
feature nodes override ancestor_hash to their own hash only. -/
inductive HTree
  | leaf (k : NodeKind)
  | nilt
  | cons (hd tl : HTree)
  | node (p : Nat) (ps : HTree)
deriving DecidableEq, Repr

/-- Encode a list of parent hashes as a right-nested HTree (the
encoding is injective, so equality of encodings is equality of the
lists). -/
def HTree.ofList : List HTree → HTree
  | [] => .nilt
  | t :: ts => .cons t (HTree.ofList ts)

/-- ancestor_hash (extraction_graph.py lines 50-52 with the overrides at
lines 205-207, 222-223 and 250-251), with a fuel bound on the recursion
depth; with fuel larger than the ancestor depth the result is always
defined. -/
def ancestor_hash (ar : List GNode) : Nat → Nat → Option HTree
  | 0, _ => none
  | fuel + 1, i =>
    match ar.get? i with
    | none => none
    | some n =>
      match n.kind with
      | .proc p =>
        (n.parents.foldr
          (fun j acc =>
            match ancestor_hash ar fuel j, acc with
            | some t, some ts => some (t :: ts)
            | _, _ => none)
          (some []))
        |>.map (fun ts => HTree.node p (HTree.ofList ts))
      | k => some (.leaf k)

/-- ExtractionDAG.genealogical_search (lines 286-292): the first stored
node whose ancestor hash equals that of the searched node. -/
def genealogical_search (st : DagState) (fuel : Nat) (i : Nat) : Option Nat :=
  st.dagNodes.find? (fun j =>
    match ancestor_hash st.arena fuel j, ancestor_hash st.arena fuel i with
    | some a, some b => decide (a = b)
    | _, _ => false)

/-- Python list.index with node equality: the index of the first
element whose hash (kind) equals that of the searched node. -/
def indexOfKind (ar : List GNode) (p : Nat) : List Nat → Option Nat
  | [] => none
  | j :: t =>
    if localKind ar j = localKind ar p then some 0
    else Option.map (fun i => i + 1) (indexOfKind ar p t)

/-- BaseGraphNode.replace_parent (lines 58-61): the index of the old
parent is found by Python list.index, which compares nodes by their
hash, i.e. by kind; the slot found is overwritten with the new parent.
(When no slot matches, Python would raise ValueError; that situation is
unreachable in the uses below and the model leaves the node alone.) -/
def replace_parent (ar : List GNode) (c oldp newp : Nat) : List GNode :=
  modifyNode ar c (fun n =>
    match indexOfKind ar oldp n.parents with
    | some idx => ⟨n.kind, n.isFeat, n.parents.set idx newp, n.children⟩
    | none => n)

/-- The parent loop of add_pipeline (lines 326-334): for each parent of
the node being absorbed, search the DAG for a stored node with the same
ancestor hash; when found, redirect the parent pointer to it and record
the absorbed node among its children; when not found, push the parent
on the left end of the work deque. -/
def processParents (fuel : Nat) (nid : Nat) :
    List Nat → DagState → List Nat → DagState × List Nat
  | [], st, stack => (st, stack)
  | p :: rest, st, stack =>
    match genealogical_search st fuel p with
    | some d =>
      let ar1 := replace_parent st.arena nid p d
      let ar2 := modifyNode ar1 d (fun n => ⟨n.kind, n.isFeat, n.parents, n.children ++ [nid]⟩)
      processParents fuel nid rest { st with arena := ar2 } stack
    | none => processParents fuel nid rest st (p :: stack)

/-- ExtractionDAG.inputs: the data names of the root's children. -/
def inputNames (st : DagState) : List String :=
  ((st.arena.get? st.rootId).elim [] (fun n => n.children)).foldr
    (fun c acc =>
      match localKind st.arena c with
      | some (.input dn) => dn :: acc
      | _ => acc) []

/-- The while loop of add_pipeline (lines 310-334).  The work list is
the deque: its last element is popped, a parentless FeatureNode is
replaced by a fresh InputNode carrying the feature's name and marked
is_feat, the node is appended to self.nodes, an InputNode is asserted
fresh and wired under the root, and any other node has its parents
processed.  The outer fuel only bounds the iteration count. -/
def add_pipeline_loop (hashFuel : Nat) : Nat → DagState → List Nat → Option DagState
  | 0, _, _ => none
  | fuel + 1, st0, stack =>
    match stack.getLast? with
    | none => some st0
    | some n0 =>
      let rest := stack.dropLast
      let conv : DagState × Nat :=
        match st0.arena.get? n0 with
        | some n =>
          match n.kind, n.parents with
          | .feature fname, [] =>
            ({ st0 with arena := st0.arena ++ [⟨.input fname, true, [], []⟩] },
              st0.arena.length)
          | _, _ => (st0, n0)
        | none => (st0, n0)
      let st1 := conv.1
      let nid := conv.2
      let st2 := { st1 with dagNodes := st1.dagNodes ++ [nid] }
      match st2.arena.get? nid with
      | none => none
      | some n =>
        match n.kind with
        | .input dn =>
          if (inputNames st2).contains dn then none
          else
            let ar1 := modifyNode st2.arena nid
              (fun m => ⟨m.kind, m.isFeat, [st2.rootId], m.children⟩)
            let ar2 := modifyNode ar1 st2.rootId
              (fun r => ⟨r.kind, r.isFeat, r.parents, r.children ++ [nid]⟩)
            add_pipeline_loop hashFuel fuel { st2 with arena := ar2 } rest
        | _ =>
          let out := processParents hashFuel nid n.parents st2 rest
          add_pipeline_loop hashFuel fuel out.1 out.2

/-- Feature registration at the head of add_pipeline (lines 295-301):
each output must be a feature node whose name is not yet registered. -/
def register_features : List Nat → DagState → Option DagState
  | [], st => some st
  | o :: rest, st =>
    match st.arena.get? o with
    | some n =>
      match n.kind with
      | .feature fname =>
        if (List.lookup fname st.featureNodes).isSome then none
        else register_features rest { st with featureNodes := st.featureNodes ++ [(fname, o)] }
      | _ => none
    | none => none

/-- ExtractionDAG.add_pipeline (lines 294-336), taking the pipeline as
the list of its output feature nodes (already living in the arena). -/
def add_pipeline (hashFuel loopFuel : Nat) (st : DagState) (outputs : List Nat) :
    Option DagState :=
  match register_features outputs st with
  | none => none
  | some st1 =>
    match add_pipeline_loop hashFuel loopFuel st1 outputs with
    | none => none
    | some st2 => some { st2 with needsDepSolving := true }

/-- Python list.remove: drop the first element equal (by node hash,
i.e. kind) to the removed node. -/
def removeFirstByKind (ar : List GNode) : List Nat → Option NodeKind → List Nat
  | [], _ => []
  | x :: t, k => if localKind ar x = k then t else x :: removeFirstByKind ar t k

/-- The child-rewiring loop of solve_dependencies (lines 361-362). -/
def rewireChildren (c f : Nat) : List Nat → List GNode → List GNode
  | [], ar => ar
  | ch :: rest, ar => rewireChildren c f rest (replace_parent ar ch c f)

/-- The body of the solve_dependencies loop for one root child (lines
345-365): a root-attached input whose name is no feature is skipped
(or, when it was declared is_feat, reported as an unsolvable
dependency); otherwise every child of the input node gets its parent
pointer replaced by the feature node, and the input node is removed
from the root's children and from the node list.  Nothing is ever
added to any children list. -/
def solveNodeStep (st : DagState) (c : Nat) : Option DagState :=
  match st.arena.get? c with
  | none => none
  | some n =>
    match n.kind with
    | .input dataName =>
      match List.lookup dataName st.featureNodes with
      | none => if n.isFeat then none else some st
      | some f =>
        let ar1 := rewireChildren c f n.children st.arena
        let ar2 := modifyNode ar1 st.rootId (fun rn =>
          ⟨rn.kind, rn.isFeat, rn.parents,
            removeFirstByKind ar1 rn.children (localKind ar1 c)⟩)
        some { st with
          arena := ar2,
          dagNodes := removeFirstByKind ar2 st.dagNodes (localKind ar2 c) }
    | _ => none

def solveLoop : List Nat → DagState → Option DagState
  | [], st => some st
  | c :: rest, st =>
    match solveNodeStep st c with
    | none => none
    | some st' => solveLoop rest st'

/-- ExtractionDAG.solve_dependencies (lines 338-367): guarded by the
dirty flag, iterates over a snapshot of the root's children and clears
the flag at the end. -/
def solve_dependencies (st : DagState) : Option DagState :=
  if st.needsDepSolving = true then
    match solveLoop ((st.arena.get? st.rootId).elim [] (fun n => n.children)) st with
    | none => none
    | some st' => some { st' with needsDepSolving := false }
  else some st

/-! ### Claim C2: node deduplication by ancestor hash -/

/-- A node object with the given kind, parents and children (is_feat
false). -/
def gn (k : NodeKind) (ps cs : List Nat) : GNode := ⟨k, false, ps, cs⟩

/-- Arena for the C2 scenario.  Node 0 is the root.  Nodes 1-3 are the
first pipeline, Input a into processor 100 into feature f0.  Nodes 4-7
and 8-11 are the two branches of the second pipeline, each reading
Input a into processor 100 into processor 200, ending in features f1
and f2: the two branches are structurally identical up to their
feature nodes. -/
def c2arena0 : List GNode := [
  gn .root [] [],
  gn (.input "a") [] [2],
  gn (.proc 100) [1] [3],
  gn (.feature "f0") [2] [],
  gn (.input "a") [] [5],
  gn (.proc 100) [4] [6],
  gn (.proc 200) [5] [7],
  gn (.feature "f1") [6] [],
  gn (.input "a") [] [9],
  gn (.proc 100) [8] [10],
  gn (.proc 200) [9] [11],
  gn (.feature "f2") [10] []]

def c2st0 : DagState := ⟨c2arena0, [], [], 0, false⟩

/-- The DAG after adding the one-branch pipeline and then the
two-identical-branch pipeline; both calls complete normally. -/
def c2dag : Option DagState :=
  (add_pipeline 9 50 c2st0 [3]).bind (fun st => add_pipeline 9 50 st [7, 11])

/-- Whether two distinct stored nodes of the DAG have equal (defined)
ancestor hashes. -/
def dup_ancestor_hash_exists (st : DagState) (fuel : Nat) : Bool :=
  st.dagNodes.any (fun i => st.dagNodes.any (fun j =>
    decide (i ≠ j) && (ancestor_hash st.arena fuel i).isSome &&
      decide (ancestor_hash st.arena fuel i = ancestor_hash st.arena fuel j)))

/-- Claim C2, counterexample.  The claim states that after any sequence
of add_pipeline calls no two distinct stored nodes have equal ancestor
hashes.  Adding a pipeline with two structurally identical parallel
branches whose shared prefix already sits in the DAG stores both copies
of the processor-200 node (nodes 6 and 10): when each branch's
processor-200 node is reached, the other one is still on the work
deque, not yet in the node list, so the search cannot find it; both are
then stored, and both end up with the same parent (the shared stored
processor-100 node) and hence equal ancestor hashes. -/
theorem c2_counterexample :
    c2dag.map (fun st => dup_ancestor_hash_exists st 9) = some true
    ∧ c2dag.map (fun st =>
        st.dagNodes.contains 6 && st.dagNodes.contains 10
        && decide (ancestor_hash st.arena 9 6 = ancestor_hash st.arena 9 10)
        && (ancestor_hash st.arena 9 6).isSome) = some true := by
  constructor <;> decide

/-! ### Arena helper lemmas -/

theorem get?_set_self {α : Type} :
    ∀ (l : List α) (i : Nat) (a : α), i < l.length → (l.set i a).get? i = some a
  | [], i, _, h => by simp at h
  | _ :: _, 0, _, _ => rfl
  | _ :: t, i + 1, a, h => by
    simp only [List.set, List.get?]
    exact get?_set_self t i a (by simpa using h)

theorem get?_set_ne {α : Type} :
    ∀ (l : List α) (i j : Nat) (a : α), j ≠ i → (l.set i a).get? j = l.get? j
  | [], _, _, _, _ => rfl
  | _ :: _, 0, 0, _, h => absurd rfl h
  | _ :: _, 0, _ + 1, _, _ => rfl
  | _ :: _, _ + 1, 0, _, _ => rfl
  | _ :: t, i + 1, j + 1, a, h => by
    simp only [List.set, List.get?]
    exact get?_set_ne t i j a (fun hh => h (by rw [hh]))

theorem get?_some_lt {α : Type} :
    ∀ (l : List α) (i : Nat) (a : α), l.get? i = some a → i < l.length
  | [], i, a, h => by simp [List.get?] at h
  | _ :: _, 0, _, _ => by simp
  | _ :: t, i + 1, a, h => by
    simp only [List.get?] at h
    simpa using Nat.succ_lt_succ (get?_some_lt t i a h)

theorem modifyNode_get_self (ar : List GNode) (i : Nat) (f : GNode → GNode) (n : GNode)
    (h : ar.get? i = some n) : (modifyNode ar i f).get? i = some (f n) := by
  unfold modifyNode
  rw [h]
  exact get?_set_self ar i (f n) (get?_some_lt ar i n h)

theorem modifyNode_get_ne (ar : List GNode) (i : Nat) (f : GNode → GNode) (j : Nat)
    (h : j ≠ i) : (modifyNode ar i f).get? j = ar.get? j := by
  unfold modifyNode
  cases hg : ar.get? i with
  | none => rfl
  | some n => exact get?_set_ne ar i j (f n) h

theorem indexOfKind_spec (ar : List GNode) (p : Nat) :
    ∀ l : List Nat, ∀ q ∈ l, localKind ar q = localKind ar p →
      ∃ idx q', indexOfKind ar p l = some idx ∧ l.get? idx = some q'
        ∧ localKind ar q' = localKind ar p := by
  intro l
  induction l with
  | nil => intro q hq; simp at hq
  | cons j t ih =>
    intro q hq hkq
    by_cases hkj : localKind ar j = localKind ar p
    · exact ⟨0, j, by simp [indexOfKind, hkj], rfl, hkj⟩
    · rcases List.mem_cons.mp hq with rfl | hq'
      · exact absurd hkq hkj
      · obtain ⟨idx, q', h1, h2, h3⟩ := ih q hq' hkq
        exact ⟨idx + 1, q', by simp [indexOfKind, hkj, h1], h2, h3⟩

/-- Claim C2, amended: whenever a node being absorbed by add_pipeline
has a parent whose ancestor hash equals that of a node already stored
in the DAG's node list at the time of the search (so that
genealogical_search finds that stored node), the parent pointer is
redirected to the stored node — the slot holding the matching parent is
overwritten with a reference to the very same stored node object — and
the absorbed node is appended to the stored node's children; the work
deque is left alone.  (The deduplication is only performed against
nodes already stored: as the counterexample shows, two structurally
identical nodes absorbed during one add_pipeline call can both be
stored, so the no-duplicates invariant holds only against the node list
as it was when each node was absorbed.) -/
theorem c2_amended (fuel : Nat) (st : DagState) (stack : List Nat) (nid p d : Nat)
    (n nd : GNode)
    (hn : st.arena.get? nid = some n) (hp : p ∈ n.parents)
    (hs : genealogical_search st fuel p = some d)
    (hd : st.arena.get? d = some nd) (hdn : d ≠ nid) :
    ∃ idx q m nd',
      n.parents.get? idx = some q
      ∧ localKind st.arena q = localKind st.arena p
      ∧ (processParents fuel nid [p] st stack).1.arena.get? nid = some m
      ∧ m.parents = n.parents.set idx d
      ∧ m.parents.get? idx = some d
      ∧ (processParents fuel nid [p] st stack).1.arena.get? d = some nd'
      ∧ nd'.children = nd.children ++ [nid]
      ∧ (processParents fuel nid [p] st stack).2 = stack := by
  obtain ⟨idx, q, hidx, hget, hkind⟩ :=
    indexOfKind_spec st.arena p n.parents p hp rfl
  have hres : processParents fuel nid [p] st stack
      = (⟨modifyNode (replace_parent st.arena nid p d) d
            (fun m => ⟨m.kind, m.isFeat, m.parents, m.children ++ [nid]⟩),
          st.dagNodes, st.featureNodes, st.rootId, st.needsDepSolving⟩, stack) := by
    simp only [processParents, hs]
  have har1nid : (replace_parent st.arena nid p d).get? nid
      = some ⟨n.kind, n.isFeat, n.parents.set idx d, n.children⟩ := by
    unfold replace_parent
    rw [modifyNode_get_self st.arena nid _ n hn]
    simp only [hidx]
  have har1d : (replace_parent st.arena nid p d).get? d = some nd := by
    unfold replace_parent
    rw [modifyNode_get_ne st.arena nid _ d hdn]
    exact hd
  refine ⟨idx, q, ⟨n.kind, n.isFeat, n.parents.set idx d, n.children⟩,
    ⟨nd.kind, nd.isFeat, nd.parents, nd.children ++ [nid]⟩,
    hget, hkind, ?_, rfl, ?_, ?_, rfl, ?_⟩
  · rw [hres]
    simp only
    rw [modifyNode_get_ne _ d _ nid (fun hh => hdn hh.symm)]
    exact har1nid
  · exact get?_set_self n.parents idx d (get?_some_lt n.parents idx q hget)
  · rw [hres]
    simp only
    rw [modifyNode_get_self _ d _ nd har1d]
  · rw [hres]

/-- A small concrete DAG for the C2 witness: root 0 with input child 1
(data name a, already stored in the node list); node 2 is a processor
node being absorbed whose parent 3 is the pipeline's own copy of the
input, which genealogical search matches with stored node 1. -/
def c2wSt : DagState :=
  ⟨[gn .root [] [1], ⟨.input "a", false, [0], [2]⟩,
    gn (.proc 5) [3] [], gn (.input "a") [] [2]],
  [1], [], 0, true⟩

/-- Claim C2, amended, witness: absorbing node 2, whose parent 3 has
the same ancestor hash as stored node 1, redirects node 2's parent slot
to node 1, appends node 2 to node 1's children, and leaves the work
deque alone. -/
theorem c2_amended_witness :
    ∃ idx q m nd',
      ([3] : List Nat).get? idx = some q
      ∧ localKind c2wSt.arena q = localKind c2wSt.arena 3
      ∧ (processParents 3 2 [3] c2wSt [9]).1.arena.get? 2 = some m
      ∧ m.parents = ([3] : List Nat).set idx 1
      ∧ m.parents.get? idx = some 1
      ∧ (processParents 3 2 [3] c2wSt [9]).1.arena.get? 1 = some nd'
      ∧ nd'.children = [2] ++ [2]
      ∧ (processParents 3 2 [3] c2wSt [9]).2 = [9] :=
  c2_amended 3 c2wSt [9] 2 3 1 (gn (.proc 5) [3] []) ⟨.input "a", false, [0], [2]⟩
    rfl (by decide) (by decide) rfl (by decide)

/-! ### Claim C4: dependency solving -/

/-- Arena for the C4 scenario.  Node 0 is the root.  The first pipeline
reads Input x (node 1) into processor 100 (node 2) into feature f
(node 3); the second reads Input y (node 4) into processor 200 (node 5)
into a feature named x (node 6).  After both pipelines are added, the
root-attached input node 1 is named like the registered feature x. -/
def c4arena0 : List GNode := [
  gn .root [] [],
  gn (.input "x") [] [2],
  gn (.proc 100) [1] [3],
  gn (.feature "f") [2] [],
  gn (.input "y") [] [5],
  gn (.proc 200) [4] [6],
  gn (.feature "x") [5] []]

def c4st0 : DagState := ⟨c4arena0, [], [], 0, false⟩

/-- The DAG after adding both pipelines and solving dependencies. -/
def c4dag : Option DagState :=
  ((add_pipeline 9 50 c4st0 [3]).bind (fun st => add_pipeline 9 50 st [6])).bind
    solve_dependencies

/-- Claim C4, counterexample.  The claim's premise holds: input node 1,
directly attached to the root and named x, matches the registered
feature node 6, its only former child being node 2.  After
solve_dependencies, node 1 is eliminated (gone from the node list and
from the root's children, which retain only input node 4) and node 2's
parent list holds the feature node 6 in its place, but feature node 6's
children list is still empty: solve_dependencies never adds the former
children to the feature node's children list, refuting the claim's
third conjunct. -/
theorem c4_counterexample :
    c4dag.map (fun st =>
      decide ((st.arena.get? 2).map (fun n => n.parents) = some [6])
      && decide ((st.arena.get? 6).map (fun n => n.children) = some [])
      && !(st.dagNodes.contains 1)
      && decide ((st.arena.get? 0).map (fun n => n.children) = some [4])) = some true := by
  decide

/-! ### Lemmas about graph rewiring (for the amended C4) -/

theorem replace_parent_kind (ar : List GNode) (c o np i : Nat) :
    localKind (replace_parent ar c o np) i = localKind ar i := by
  unfold replace_parent
  by_cases hic : i = c
  · subst hic
    cases hg : ar.get? i with
    | none =>
      have he : modifyNode ar i
          (fun n => match indexOfKind ar o n.parents with
            | some idx => ⟨n.kind, n.isFeat, n.parents.set idx np, n.children⟩
            | none => n) = ar := by
        unfold modifyNode
        rw [hg]
      rw [he]
    | some n =>
      unfold localKind
      rw [modifyNode_get_self ar i _ n hg]
      simp only [hg]
      cases hio : indexOfKind ar o n.parents <;> simp [hio]
  · unfold localKind
    rw [modifyNode_get_ne ar c _ i hic]

theorem replace_parent_get_ne (ar : List GNode) (c o np i : Nat) (h : i ≠ c) :
    (replace_parent ar c o np).get? i = ar.get? i := by
  unfold replace_parent
  exact modifyNode_get_ne ar c _ i h

theorem replace_parent_children (ar : List GNode) (c o np i : Nat) :
    ((replace_parent ar c o np).get? i).map (fun n => n.children)
      = (ar.get? i).map (fun n => n.children) := by
  unfold replace_parent
  by_cases hic : i = c
  · subst hic
    cases hg : ar.get? i with
    | none =>
      have he : modifyNode ar i
          (fun n => match indexOfKind ar o n.parents with
            | some idx => ⟨n.kind, n.isFeat, n.parents.set idx np, n.children⟩
            | none => n) = ar := by
        unfold modifyNode
        rw [hg]
      rw [he, hg]
    | some n =>
      rw [modifyNode_get_self ar i _ n hg]
      cases hio : indexOfKind ar o n.parents <;> simp [hio]
  · rw [modifyNode_get_ne ar c _ i hic]

theorem rewireChildren_kind (c f : Nat) :
    ∀ (cs : List Nat) (ar : List GNode) (i : Nat),
      localKind (rewireChildren c f cs ar) i = localKind ar i
  | [], _, _ => rfl
  | ch :: rest, ar, i => by
    show localKind (rewireChildren c f rest (replace_parent ar ch c f)) i = _
    rw [rewireChildren_kind c f rest (replace_parent ar ch c f) i,
      replace_parent_kind ar ch c f i]

theorem rewireChildren_children (c f : Nat) :
    ∀ (cs : List Nat) (ar : List GNode) (i : Nat),
      ((rewireChildren c f cs ar).get? i).map (fun n => n.children)
        = (ar.get? i).map (fun n => n.children)
  | [], _, _ => rfl
  | ch :: rest, ar, i => by
    show (((rewireChildren c f rest (replace_parent ar ch c f)).get? i).map
      (fun n => n.children)) = _
    rw [rewireChildren_children c f rest (replace_parent ar ch c f) i,
      replace_parent_children ar ch c f i]

theorem rewireChildren_get_notmem (c f : Nat) :
    ∀ (cs : List Nat) (ar : List GNode) (i : Nat), i ∉ cs →
      (rewireChildren c f cs ar).get? i = ar.get? i
  | [], _, _, _ => rfl
  | ch :: rest, ar, i, hi => by
    show (rewireChildren c f rest (replace_parent ar ch c f)).get? i = _
    have hir : i ∉ rest := fun hh => hi (by simp [hh])
    have hic : i ≠ ch := fun hh => hi (by simp [hh])
    rw [rewireChildren_get_notmem c f rest (replace_parent ar ch c f) i hir,
      replace_parent_get_ne ar ch c f i hic]

theorem indexOfKind_congr (ar ar' : List GNode) (p : Nat)
    (hk : ∀ j, localKind ar' j = localKind ar j) :
    ∀ l : List Nat, indexOfKind ar' p l = indexOfKind ar p l
  | [] => rfl
  | j :: t => by
    unfold indexOfKind
    rw [hk j, hk p, indexOfKind_congr ar ar' p hk t]

theorem removeFirstByKind_congr (ar ar' : List GNode)
    (hk : ∀ j, localKind ar' j = localKind ar j) :
    ∀ (l : List Nat) (k : Option NodeKind),
      removeFirstByKind ar' l k = removeFirstByKind ar l k
  | [], _ => rfl
  | x :: t, k => by
    unfold removeFirstByKind
    rw [hk x, removeFirstByKind_congr ar ar' hk t k]

theorem not_mem_removeFirstByKind (ar : List GNode) (c : Nat) :
    ∀ l : List Nat, l.Nodup → (∀ x ∈ l, localKind ar x = localKind ar c → x = c) →
      c ∉ removeFirstByKind ar l (localKind ar c)
  | [], _, _ => by simp [removeFirstByKind]
  | x :: t, hnd, huniq => by
    unfold removeFirstByKind
    by_cases hx : localKind ar x = localKind ar c
    · rw [if_pos hx]
      have hxc : x = c := huniq x (by simp) hx
      subst hxc
      exact (List.nodup_cons.mp hnd).1
    · rw [if_neg hx]
      intro hmem
      rcases List.mem_cons.mp hmem with rfl | hmem'
      · exact hx rfl
      · exact not_mem_removeFirstByKind ar c t (List.nodup_cons.mp hnd).2
          (fun y hy => huniq y (by simp [hy])) hmem'

theorem rewireChildren_spec (c f : Nat) :
    ∀ (cs : List Nat) (ar : List GNode),
      cs.Nodup →
      (∀ ch ∈ cs, ∃ chn idx, ar.get? ch = some chn ∧
        indexOfKind ar c chn.parents = some idx ∧ chn.parents.get? idx = some c) →
      ∀ ch ∈ cs, ∃ chn idx,
        ar.get? ch = some chn ∧ indexOfKind ar c chn.parents = some idx
        ∧ chn.parents.get? idx = some c
        ∧ (rewireChildren c f cs ar).get? ch
            = some ⟨chn.kind, chn.isFeat, chn.parents.set idx f, chn.children⟩ := by
  intro cs
  induction cs with
  | nil => intro ar _ _ ch hch; simp at hch
  | cons ch0 rest ih =>
    intro ar hnd hall ch hch
    have hch0notrest : ch0 ∉ rest := (List.nodup_cons.mp hnd).1
    obtain ⟨chn0, idx0, hg0, hi0, hp0⟩ := hall ch0 (by simp)
    have hstep : rewireChildren c f (ch0 :: rest) ar
        = rewireChildren c f rest (replace_parent ar ch0 c f) := rfl
    have hrepl : (replace_parent ar ch0 c f).get? ch0
        = some ⟨chn0.kind, chn0.isFeat, chn0.parents.set idx0 f, chn0.children⟩ := by
      unfold replace_parent
      rw [modifyNode_get_self ar ch0 _ chn0 hg0]
      simp only [hi0]
    have hkpres : ∀ j, localKind (replace_parent ar ch0 c f) j = localKind ar j :=
      fun j => replace_parent_kind ar ch0 c f j
    rcases List.mem_cons.mp hch with rfl | hchrest
    · refine ⟨chn0, idx0, hg0, hi0, hp0, ?_⟩
      rw [hstep, rewireChildren_get_notmem c f rest (replace_parent ar ch c f) ch
        hch0notrest]
      exact hrepl
    · have hchne : ch ≠ ch0 := by
        intro hh
        subst hh
        exact hch0notrest hchrest
      obtain ⟨chn, idx, hg, hi, hp⟩ := hall ch (by simp [hchrest])
      have hg' : (replace_parent ar ch0 c f).get? ch = some chn := by
        rw [replace_parent_get_ne ar ch0 c f ch hchne]
        exact hg
      have hi' : indexOfKind (replace_parent ar ch0 c f) c chn.parents = some idx := by
        rw [indexOfKind_congr ar (replace_parent ar ch0 c f) c hkpres chn.parents]
        exact hi
      obtain ⟨chn', idx', hg'', hi'', hp'', hres⟩ := ih (replace_parent ar ch0 c f)
        (List.nodup_cons.mp hnd).2
        (by
          intro y hy
          obtain ⟨yn, yidx, hyg, hyi, hyp⟩ := hall y (by simp [hy])
          refine ⟨yn, yidx, ?_, ?_, hyp⟩
          · have hyne : y ≠ ch0 := by
              intro hh
              subst hh
              exact hch0notrest hy
            rw [replace_parent_get_ne ar ch0 c f y hyne]
            exact hyg
          · rw [indexOfKind_congr ar (replace_parent ar ch0 c f) c hkpres yn.parents]
            exact hyi)
        ch hchrest
      have hchn : chn' = chn := by
        rw [hg'] at hg''
        injection hg'' with hh
        exact hh.symm
      have hidx : idx' = idx := by
        rw [hchn] at hi''
        rw [hi'] at hi''
        injection hi'' with hh
        exact hh.symm
      refine ⟨chn, idx, hg, hi, hp, ?_⟩
      rw [hstep, hres, hchn, hidx]

theorem modifyNode_kind_preserve (ar : List GNode) (i : Nat) (f : GNode → GNode)
    (hf : ∀ n, (f n).kind = n.kind) (j : Nat) :
    localKind (modifyNode ar i f) j = localKind ar j := by
  by_cases hji : j = i
  · subst hji
    cases hg : ar.get? j with
    | none =>
      have he : modifyNode ar j f = ar := by
        unfold modifyNode
        rw [hg]
      rw [he]
    | some n =>
      unfold localKind
      rw [modifyNode_get_self ar j f n hg, hg]
      simp [hf n]
  · unfold localKind
    rw [modifyNode_get_ne ar i f j hji]

theorem solveNodeStep_children (st : DagState) (c : Nat) (st' : DagState)
    (h : solveNodeStep st c = some st') :
    st'.rootId = st.rootId
    ∧ ∀ i, i ≠ st.rootId →
      (st'.arena.get? i).map (fun n => n.children)
        = (st.arena.get? i).map (fun n => n.children) := by
  unfold solveNodeStep at h
  split at h
  · exact absurd h (by simp)
  · split at h
    · split at h
      · split at h
        · exact absurd h (by simp)
        · injection h with h
          rw [← h]
          exact ⟨rfl, fun _ _ => rfl⟩
      · injection h with h
        rw [← h]
        refine ⟨rfl, ?_⟩
        intro i hi
        simp only
        rw [modifyNode_get_ne _ st.rootId _ i hi]
        exact rewireChildren_children _ _ _ st.arena i
    · exact absurd h (by simp)

theorem solveLoop_children :
    ∀ (l : List Nat) (st st' : DagState), solveLoop l st = some st' →
      st'.rootId = st.rootId
      ∧ ∀ i, i ≠ st.rootId →
        (st'.arena.get? i).map (fun n => n.children)
          = (st.arena.get? i).map (fun n => n.children)
  | [], st, st', h => by
    have h' : st = st' := by
      simpa [solveLoop] using h
    rw [← h']
    exact ⟨rfl, fun _ _ => rfl⟩
  | c :: rest, st, st', h => by
    unfold solveLoop at h
    cases hs : solveNodeStep st c with
    | none =>
      rw [hs] at h
      exact absurd h (by simp)
    | some st1 =>
      rw [hs] at h
      obtain ⟨hr1, hc1⟩ := solveNodeStep_children st c st1 hs
      obtain ⟨hr2, hc2⟩ := solveLoop_children rest st1 st' h
      refine ⟨hr2.trans hr1, ?_⟩
      intro i hi
      rw [hc2 i (by rw [hr1]; exact hi), hc1 i hi]

theorem solve_dependencies_children (st st' : DagState)
    (h : solve_dependencies st = some st') (i : Nat) (hi : i ≠ st.rootId) :
    (st'.arena.get? i).map (fun n => n.children)
      = (st.arena.get? i).map (fun n => n.children) := by
  unfold solve_dependencies at h
  by_cases hd : st.needsDepSolving = true
  · rw [if_pos hd] at h
    cases hl : solveLoop ((st.arena.get? st.rootId).elim [] (fun n => n.children)) st with
    | none =>
      rw [hl] at h
      exact absurd h (by simp)
    | some st1 =>
      rw [hl] at h
      injection h with h
      rw [← h]
      exact (solveLoop_children _ st st1 hl).2 i hi
  · rw [if_neg hd] at h
    injection h with h
    rw [← h]

theorem solveNodeStep_solves (st : DagState) (c f : Nat) (n rn : GNode) (dn : String)
    (hn : st.arena.get? c = some n) (hk : n.kind = .input dn)
    (hf : List.lookup dn st.featureNodes = some f)
    (hndch : n.children.Nodup)
    (hch : ∀ ch ∈ n.children, ch ≠ st.rootId ∧
      ∃ chn idx, st.arena.get? ch = some chn ∧
        indexOfKind st.arena c chn.parents = some idx ∧ chn.parents.get? idx = some c)
    (hroot : st.arena.get? st.rootId = some rn)
    (hndr : rn.children.Nodup)
    (huniqr : ∀ x ∈ rn.children, localKind st.arena x = localKind st.arena c → x = c)
    (hndd : st.dagNodes.Nodup)
    (huniqd : ∀ x ∈ st.dagNodes, localKind st.arena x = localKind st.arena c → x = c) :
    ∃ st', solveNodeStep st c = some st'
      ∧ (∀ ch ∈ n.children, ∃ chn idx,
          st.arena.get? ch = some chn ∧ chn.parents.get? idx = some c
          ∧ st'.arena.get? ch
              = some ⟨chn.kind, chn.isFeat, chn.parents.set idx f, chn.children⟩)
      ∧ c ∉ st'.dagNodes
      ∧ (∃ rn', st'.arena.get? st.rootId = some rn' ∧ c ∉ rn'.children) := by
  have hrootnotch : st.rootId ∉ n.children := by
    intro hmem
    exact absurd rfl ((hch st.rootId hmem).1)
  have hka1 : ∀ j, localKind (rewireChildren c f n.children st.arena) j
      = localKind st.arena j :=
    fun j => rewireChildren_kind c f n.children st.arena j
  have har1root : (rewireChildren c f n.children st.arena).get? st.rootId = some rn := by
    rw [rewireChildren_get_notmem c f n.children st.arena st.rootId hrootnotch]
    exact hroot
  have hka2 : ∀ j,
      localKind (modifyNode (rewireChildren c f n.children st.arena) st.rootId
        (fun m => ⟨m.kind, m.isFeat, m.parents,
          removeFirstByKind (rewireChildren c f n.children st.arena) m.children
            (localKind (rewireChildren c f n.children st.arena) c)⟩)) j
      = localKind st.arena j := by
    intro j
    rw [modifyNode_kind_preserve (rewireChildren c f n.children st.arena) st.rootId
      (fun m => ⟨m.kind, m.isFeat, m.parents,
        removeFirstByKind (rewireChildren c f n.children st.arena) m.children
          (localKind (rewireChildren c f n.children st.arena) c)⟩)
      (fun m => rfl) j, hka1 j]
  refine ⟨⟨modifyNode (rewireChildren c f n.children st.arena) st.rootId
      (fun m => ⟨m.kind, m.isFeat, m.parents,
        removeFirstByKind (rewireChildren c f n.children st.arena) m.children
          (localKind (rewireChildren c f n.children st.arena) c)⟩),
    removeFirstByKind
      (modifyNode (rewireChildren c f n.children st.arena) st.rootId
        (fun m => ⟨m.kind, m.isFeat, m.parents,
          removeFirstByKind (rewireChildren c f n.children st.arena) m.children
            (localKind (rewireChildren c f n.children st.arena) c)⟩))
      st.dagNodes
      (localKind
        (modifyNode (rewireChildren c f n.children st.arena) st.rootId
          (fun m => ⟨m.kind, m.isFeat, m.parents,
            removeFirstByKind (rewireChildren c f n.children st.arena) m.children
              (localKind (rewireChildren c f n.children st.arena) c)⟩)) c),
    st.featureNodes, st.rootId, st.needsDepSolving⟩, ?_, ?_, ?_, ?_⟩
  · unfold solveNodeStep
    rw [hn]
    simp only [hk, hf]
  · intro ch hmem
    obtain ⟨chn, idx, hgch, hich, hpch, hres⟩ :=
      rewireChildren_spec c f n.children st.arena hndch
        (fun y hy => (hch y hy).2) ch hmem
    refine ⟨chn, idx, hgch, hpch, ?_⟩
    simp only
    rw [modifyNode_get_ne _ st.rootId _ ch (hch ch hmem).1]
    exact hres
  · simp only
    rw [removeFirstByKind_congr st.arena _ hka2 st.dagNodes _, hka2 c]
    exact not_mem_removeFirstByKind st.arena c st.dagNodes hndd huniqd
  · refine ⟨⟨rn.kind, rn.isFeat, rn.parents,
      removeFirstByKind (rewireChildren c f n.children st.arena) rn.children
        (localKind (rewireChildren c f n.children st.arena) c)⟩, ?_, ?_⟩
    · simp only
      rw [modifyNode_get_self _ st.rootId _ rn har1root]
    · simp only
      rw [removeFirstByKind_congr st.arena _ hka1 rn.children _, hka1 c]
      exact not_mem_removeFirstByKind st.arena c rn.children hndr huniqr

/-- Claim C4, amended: after solve_dependencies, a root-attached Input
node whose name matches a registered Feature is eliminated from the
DAG (it is gone from the node list and from the Root's children), and
each of its former children has the matching Feature node written into
the parent slot that previously held the Input node; but the Feature
node's children list is NOT updated: solve_dependencies never modifies
the children of any node other than the Root, so the Feature's children
do not come to include the Input node's former children.  The first
conjunct characterizes the processing of one such Input node (under
the well-formedness conditions of a merged DAG: the node's children are
distinct, none of them is the Root or the Input itself, each holds the
Input in the unique parent slot of its kind, and the Input's kind
occurs once among the Root's children and once in the node list); the
second states the children-preservation for the whole
solve_dependencies pass. -/
theorem c4_amended :
    (∀ (st : DagState) (c f : Nat) (n rn : GNode) (dn : String),
      st.arena.get? c = some n → n.kind = .input dn →
      List.lookup dn st.featureNodes = some f →
      n.children.Nodup →
      (∀ ch ∈ n.children, ch ≠ st.rootId ∧
        ∃ chn idx, st.arena.get? ch = some chn ∧
          indexOfKind st.arena c chn.parents = some idx ∧
          chn.parents.get? idx = some c) →
      st.arena.get? st.rootId = some rn →
      rn.children.Nodup →
      (∀ x ∈ rn.children, localKind st.arena x = localKind st.arena c → x = c) →
      st.dagNodes.Nodup →
      (∀ x ∈ st.dagNodes, localKind st.arena x = localKind st.arena c → x = c) →
      ∃ st', solveNodeStep st c = some st'
        ∧ (∀ ch ∈ n.children, ∃ chn idx,
            st.arena.get? ch = some chn ∧ chn.parents.get? idx = some c
            ∧ st'.arena.get? ch
                = some ⟨chn.kind, chn.isFeat, chn.parents.set idx f, chn.children⟩)
        ∧ c ∉ st'.dagNodes
        ∧ (∃ rn', st'.arena.get? st.rootId = some rn' ∧ c ∉ rn'.children))
    ∧ (∀ (st st' : DagState), solve_dependencies st = some st' →
        ∀ i, i ≠ st.rootId →
        (st'.arena.get? i).map (fun n => n.children)
          = (st.arena.get? i).map (fun n => n.children)) :=
  ⟨fun st c f n rn dn hn hk hf hndch hch hroot hndr huniqr hndd huniqd =>
    solveNodeStep_solves st c f n rn dn hn hk hf hndch hch hroot hndr huniqr hndd huniqd,
  fun st st' h i hi => solve_dependencies_children st st' h i hi⟩

/-- A small concrete DAG for the C4 witness: root 0 with the single
input child 1 named x, whose child is the processor node 2, and the
registered feature x at node 3. -/
def c4wSt : DagState :=
  ⟨[gn .root [] [1], ⟨.input "x", false, [0], [2]⟩,
    gn (.proc 7) [1] [3], gn (.feature "x") [] []],
  [3, 2, 1], [("x", 3)], 0, true⟩

/-- Claim C4, amended, witness: processing input node 1 of the concrete
DAG succeeds, rewires child 2's parent slot to the feature node 3,
removes node 1 from the node list and the root's children, and the full
solve_dependencies pass leaves the feature node's children unchanged. -/
theorem c4_amended_witness :
    (∃ st', solveNodeStep c4wSt 1 = some st'
      ∧ (∀ ch ∈ [2], ∃ chn idx,
          c4wSt.arena.get? ch = some chn ∧ chn.parents.get? idx = some 1
          ∧ st'.arena.get? ch
              = some ⟨chn.kind, chn.isFeat, chn.parents.set idx 3, chn.children⟩)
      ∧ 1 ∉ st'.dagNodes
      ∧ (∃ rn', st'.arena.get? 0 = some rn' ∧ 1 ∉ rn'.children))
    ∧ ((solve_dependencies c4wSt).elim False (fun st' =>
        (st'.arena.get? 3).map (fun n => n.children)
          = (c4wSt.arena.get? 3).map (fun n => n.children))) := by
  constructor
  · exact c4_amended.1 c4wSt 1 3 ⟨.input "x", false, [0], [2]⟩ (gn .root [] [1]) "x"
      rfl rfl rfl (by decide)
      (by
        intro ch hch
        have hch2 : ch = 2 := by simpa using hch
        subst hch2
        exact ⟨by decide, gn (.proc 7) [1] [3], 0, rfl, by decide, rfl⟩)
      rfl (by decide)
      (by decide)
      (by decide)
      (by decide)
  · cases hs : solve_dependencies c4wSt with
    | none =>
      exact absurd hs (by decide)
    | some st' =>
      simp only [Option.elim]
      exact c4_amended.2 c4wSt st' hs 3 (by decide)

end Adfluo
